import Mathlib

/-!
Verification of the Agent-orchestrator task scheduler and protocol client.

Shallow embedding of:
  * `src/api/services/orchestrator.py` — wave execution of subtask DAGs
    (`Orchestrator._execute_subtasks`, `_execute_single_subtask`,
    `_review_subtask`, `_synthesize_results`, `_orchestrate`/`_get_task_plan`
    planning fallback);
  * `src/api/services/agent_templates.py` — `match_template` keyword heuristic;
  * `src/api/services/remote_jason.py` — `_poll_for_response`/`chat_send`
    history polling, event-sequence gap tracking in `_listen_loop`,
    pending-waiter bookkeeping (`request`, `_flush_pending`);
  * `src/api/services/sub_agent.py` — `_apply_agent_changes`,
    `execute_sub_agent` completion/failure bookkeeping;
  * `src/api/services/remote_orchestrator.py` — `strip_jason_mention`,
    `handle_jason_mention` empty-task short circuit.

LLM calls, the WebSocket transport and `json.loads` are modelled as oracle
parameters (a function argument supplying their outcome); everything else is
translated from the source.
-/

namespace AgentOrch

/-! ## Wave engine (`orchestrator.py`)

`SubtaskStatus` mirrors the Python `SubtaskStatus` enum, `Subtask` the
`Subtask` class (fields not consulted by the scheduler — `deployment_id`,
`started_at`, `completed_at` — are elided; timestamps are modelled separately
for the review step). -/

inductive SubtaskStatus where
  | pending
  | creatingAgent
  | executing
  | reviewing
  | completed
  | failed
deriving DecidableEq

structure Subtask where
  id : String
  description : String
  agentType : String
  dependsOn : List String
  status : SubtaskStatus
  result : Option String
  error : Option String
deriving DecidableEq

/-- `Subtask.__init__`: a freshly created subtask is `PENDING` with no
result and no error. -/
def mkSubtask (i desc aty : String) (deps : List String) : Subtask :=
  ⟨i, desc, aty, deps, .pending, none, none⟩

/-- Outcome oracle for one run of the `_execute_single_subtask` coroutine:
either it returns normally (having stored `result_text` in `subtask.result`
and marked the subtask `COMPLETED`), or it raises with message `msg`.
The review step never raises (`_review_subtask` auto-approves on failure),
so a raise leaves the subtask marked `FAILED` by the wave loop. -/
inductive ExecOutcome where
  | ok (result : String)
  | exc (msg : String)
deriving DecidableEq

/-- Net effect on one subtask of executing it in a wave:
`_execute_single_subtask` marks it `COMPLETED` with its result on normal
return; on a raise, the `zip(ready, results)` loop in `_execute_subtasks`
marks it `FAILED` and stores `str(result)` as its error. -/
def execOne (outcome : String → ExecOutcome) (st : Subtask) : Subtask :=
  match outcome st.id with
  | .ok r => { st with status := .completed, result := some r }
  | .exc m => { st with status := .failed, error := some m }

/-- State of the `_execute_subtasks` loop: the task's subtask list, the
local `completed_ids` set (kept as a list; only membership is consulted),
and whether the loop has hit its `break`. -/
structure WaveState where
  subtasks : List Subtask
  completedIds : List String
  finished : Bool
deriving DecidableEq

/-- The `ready` list: subtasks still `PENDING` all of whose `depends_on`
are in `completed_ids`. -/
def readySet (sts : List Subtask) (cids : List String) : List Subtask :=
  sts.filter fun st => decide (st.status = .pending ∧ ∀ d ∈ st.dependsOn, d ∈ cids)

/-- `all(st.status in (COMPLETED, FAILED) for st in task.subtasks)`. -/
def allTerminal (sts : List Subtask) : Bool :=
  sts.all fun st => decide (st.status = .completed ∨ st.status = .failed)

/-- Effect of one wave on the subtask list: every ready subtask is run
(`asyncio.gather` over `ready`) and its object is updated in place — the
aliasing of the `Subtask` objects held both by `ready` and by
`task.subtasks` is rendered as an id-keyed map over the task's list. -/
def waveUpdate (outcome : String → ExecOutcome) (sts : List Subtask)
    (cids : List String) : List Subtask :=
  sts.map fun st =>
    if (readySet sts cids).any (fun r => decide (r.id = st.id)) then execOne outcome st
    else st

/-- Effect of one wave on `completed_ids`: the `zip(ready, results)` loop
adds the id of every ready subtask whose execution did not raise. -/
def waveNewCids (outcome : String → ExecOutcome) (sts : List Subtask)
    (cids : List String) : List String :=
  cids ++
    ((readySet sts cids).filter fun r =>
      decide ((execOne outcome r).status = .completed)).map (·.id)

/-- One iteration of the `for iteration in range(max_iterations)` loop in
`_execute_subtasks`: compute the ready set; if it is empty, break when all
subtasks are terminal and otherwise sleep (no state change); if it is
nonempty, run every ready subtask, record failures, and add the ids of
successful subtasks to `completed_ids`. -/
def waveStep (outcome : String → ExecOutcome) (s : WaveState) : WaveState :=
  if s.finished then s
  else
    let ready := readySet s.subtasks s.completedIds
    if ready.isEmpty then
      if allTerminal s.subtasks then { s with finished := true } else s
    else
      { subtasks := waveUpdate outcome s.subtasks s.completedIds
        completedIds := waveNewCids outcome s.subtasks s.completedIds
        finished := false }

/-- Entry state of `_execute_subtasks`: `completed_ids = set()`, loop not
yet broken. -/
def initState (sts : List Subtask) : WaveState := ⟨sts, [], false⟩

/-- Iterate the wave loop body `n` times (the `range(max_iterations)`
bound makes the Python loop run at most this many iterations; a `break`
is modelled by the `finished` flag freezing the state). -/
def iterWaves (outcome : String → ExecOutcome) : Nat → WaveState → WaveState
  | 0, s => s
  | n + 1, s => iterWaves outcome n (waveStep outcome s)

/-- The whole `_execute_subtasks` run: `max_iterations = len(task.subtasks) + 5`. -/
def runWaves (outcome : String → ExecOutcome) (sts : List Subtask) : WaveState :=
  iterWaves outcome (sts.length + 5) (initState sts)

/-! ### Synthesis (`_synthesize_results`) -/

/-- Python truthiness chain `a or b or c` over two optional strings and a
default: `None` and `""` are falsy. -/
def orFalsy (a b : Option String) (c : String) : String :=
  match a with
  | some s => if s = "" then (match b with
      | some t => if t = "" then c else t
      | none => c) else s
  | none => match b with
    | some t => if t = "" then c else t
    | none => c

/-- One entry of the `subtask_results` list built by `_synthesize_results`:
`f"[{st.id}] ({st.agent_type}, {status}):\n{result_text}"` where `status`
is `"completed"` exactly for `COMPLETED` subtasks and `result_text` is
`st.result or st.error or "No output"`. -/
def synthLine (st : Subtask) : String :=
  "[" ++ st.id ++ "] (" ++ st.agentType ++ ", "
    ++ (if st.status = .completed then "completed" else "failed")
    ++ "):\n" ++ orFalsy st.result st.error "No output"

/-- The `subtask_results` list handed to the synthesis oracle — built for
every subtask no matter its status. -/
def synthInputLines (sts : List Subtask) : List String := sts.map synthLine

/-- The deterministic concatenation fallback used when the synthesis oracle
call fails. -/
def synthesisFallback (sts : List Subtask) : String :=
  String.intercalate "\n\n---\n\n"
    (sts.map fun st =>
      "## " ++ st.agentType ++ ": " ++ st.description ++ "\n\n"
        ++ orFalsy st.result st.error "No output")

/-! ### Review step (`_review_subtask` and the tail of
`_execute_single_subtask`) -/

/-- The fields of the review JSON object consulted by the orchestrator
(`review.get("verdict")`, `review.get("summary")`, `review.get("feedback")`). -/
structure ReviewDict where
  verdict : Option String
  summary : Option String
  feedback : Option String
deriving DecidableEq

/-- Outcome oracle of the review LLM call in `_review_subtask`. -/
inductive ReviewOutcome where
  | success (review : ReviewDict)
  | failure (err : String)
deriving DecidableEq

/-- `_review_subtask`: returns the oracle's JSON verbatim, or the
auto-approval dict when the oracle call raises. -/
def reviewResult : ReviewOutcome → ReviewDict
  | .success d => d
  | .failure _ => ⟨some "approved", some "Auto-approved (review failed)", some ""⟩

/-- What the tail of `_execute_single_subtask` does with the review dict. -/
structure FinishResult where
  status : SubtaskStatus
  completedAtSet : Bool
  changeNote : Option String
deriving DecidableEq

/-- Tail of `_execute_single_subtask` after the backend produced a result:
review the output; on `verdict == "approved"` mark the subtask `COMPLETED`
and stamp `completed_at`; on any other verdict log the feedback as a note
and *still* mark it `COMPLETED` with `completed_at` stamped. -/
def finishAfterReview (ro : ReviewOutcome) : FinishResult :=
  let review := reviewResult ro
  if review.verdict = some "approved" then
    ⟨.completed, true, none⟩
  else
    ⟨.completed, true, some (review.feedback.getD "")⟩

/-! ## Agent templates (`agent_templates.py`) -/

/-- The `AGENT_TEMPLATES` catalog, in source (insertion) order, reduced to
the data `match_template` consults: type key and tag list. -/
def agentTemplates : List (String × List String) :=
  [ ("python-backend",
      ["python", "fastapi", "django", "flask", "backend", "api", "sqlalchemy"]),
    ("react-frontend",
      ["react", "typescript", "tailwind", "nextjs", "frontend", "css", "vite"]),
    ("database-expert",
      ["sql", "postgresql", "mongodb", "redis", "database", "schema", "migration"]),
    ("devops-expert",
      ["docker", "kubernetes", "cicd", "terraform", "aws", "linux", "deployment"]),
    ("fullstack",
      ["fullstack", "react", "python", "node", "api", "general"]),
    ("testing-expert",
      ["testing", "pytest", "jest", "playwright", "tdd", "qa"]) ]

/-- Python `str.lower()` (ASCII; the tag catalog is ASCII). -/
def asciiLower (s : String) : String := String.mk (s.data.map Char.toLower)

/-- `sum(1 for tag in tmpl["tags"] if tag in task_lower)` — Python `in` on
strings is substring containment. -/
def tagScore (taskLower : String) (tags : List String) : Nat :=
  tags.countP fun t => decide (t.data <:+: taskLower.data)

/-- The `scores` dict of `match_template`, keeping the catalog's insertion
order (Python dicts iterate in insertion order). -/
def templateScores (desc : String) : List (String × Nat) :=
  agentTemplates.map fun p => (p.1, tagScore (asciiLower desc) p.2)

/-- `max(scores, key=scores.get)`: Python's `max` scans left to right and
keeps the first element whose key is strictly greater than the current
best, so it returns the first maximal entry. -/
def maxFirst : List (String × Nat) → Option (String × Nat)
  | [] => none
  | p :: ps => some (ps.foldl (fun best q => if best.2 < q.2 then q else best) p)

/-- `match_template`: the keyword-heuristic fallback — the best-scoring
agent type, or `"fullstack"` when the best score is zero. (The `none`
branch is unreachable: the catalog is nonempty; Python's `max` would raise
on an empty dict.) -/
def match_template (desc : String) : String :=
  match maxFirst (templateScores desc) with
  | none => "fullstack"
  | some q => if q.2 = 0 then "fullstack" else q.1

/-- Modelled from the spec: the heuristic as the spec's words describe it —
"the first type scoring ≥ 1 tag hit, else a default generic type". Declared
only to compare the spec's description against the source's
`match_template`. -/
def specFirstHitHeuristic (desc : String) : String :=
  match agentTemplates.find? (fun p => decide (0 < tagScore (asciiLower desc) p.2)) with
  | some p => p.1
  | none => "fullstack"

/-! ### Planning fallback (`_get_task_plan` and `_orchestrate`) -/

/-- One entry of `plan["subtasks"]` after the `.get` defaulting applied in
`_orchestrate` (`agent_type` defaults to `"fullstack"`, `depends_on` to
`[]`). -/
structure PlanSubtask where
  id : String
  description : String
  agentType : String
  dependsOn : List String
deriving DecidableEq

/-- Outcome oracle of the planning LLM call (`llm_client.chat_json`). -/
inductive PlanOutcome where
  | ok (subtasks : List PlanSubtask)
  | failed (err : String)
deriving DecidableEq

/-- `_get_task_plan`: the oracle's plan, or — when the call raises — the
fallback plan holding the single subtask `subtask-1` covering the whole
task description with `match_template`'s agent type and no dependencies. -/
def get_task_plan (po : PlanOutcome) (desc : String) : List PlanSubtask :=
  match po with
  | .ok l => l
  | .failed _ => [⟨"subtask-1", desc, match_template desc, []⟩]

/-- The subtask-construction block of `_orchestrate`: build `Subtask`
objects from the plan; if none were generated, execute as a single task
with the same synthetic subtask. -/
def buildSubtasks (po : PlanOutcome) (desc : String) : List Subtask :=
  let planned := (get_task_plan po desc).map fun p =>
    mkSubtask p.id p.description p.agentType p.dependsOn
  if planned.isEmpty then [mkSubtask "subtask-1" desc (match_template desc) []]
  else planned

/-! ## Protocol client (`remote_jason.py`)

### Chat polling (`chat_send` / `_poll_for_response`) -/

/-- Python `str.strip()` (whitespace, both ends) on a character list. -/
def pyStrip (l : List Char) : List Char :=
  ((l.dropWhile Char.isWhitespace).reverse.dropWhile Char.isWhitespace).reverse

/-- Python `str.strip()` on a string. -/
def trimS (s : String) : String := String.mk (pyStrip s.data)

/-- A chat-history message, with its text content already extracted
(`remote_jason.py` flattens list-of-parts content to the concatenation of
its `text` parts; a plain string stands for itself). -/
structure ChatMsg where
  role : String
  model : Option String
  text : String
  stopReason : Option String
  errorMessage : Option String
deriving DecidableEq

/-- Python truthiness of an optional string (`None` and `""` falsy), as in
`msg.get("model")` and `bool(m.get("errorMessage"))`. -/
def optTruthy : Option String → Bool
  | some s => decide (s ≠ "")
  | none => false

/-- `RemoteJasonClient._has_content`: the extracted text is nonempty after
stripping. -/
def has_content (m : ChatMsg) : Bool := decide (trimS m.text ≠ "")

/-- `RemoteJasonClient._is_error_response`. -/
def is_error_response (m : ChatMsg) : Bool :=
  decide (m.stopReason = some "error") || optTruthy m.errorMessage

/-- Result of `_poll_for_response`: the message returned (tagged with the
index `t` of the poll that produced it), a raised `RuntimeError` for an
LLM-provider error reply, or a raised `TimeoutError`. -/
inductive PollResult where
  | found (t : Nat) (m : ChatMsg)
  | errorResp (t : Nat) (emsg : String)
  | timeout
deriving DecidableEq

/-- `reversed(new_messages)` scanning: first match from the end. -/
def findRev (p : ChatMsg → Bool) (l : List ChatMsg) : Option ChatMsg :=
  l.reverse.find? p

/-- The `while time.monotonic() < deadline` loop of `_poll_for_response`.
Real time is abstracted into `fuel`, the number of polls the deadline still
allows, and `hist t` is the `chat.history` reply of the `t`-th poll.
Each iteration: look only at `messages[baseline_index:]`; raise on an error
reply; return the last new non-user message with a model and text; track
message-count activity (20 consecutive idle polls trigger the fallback scan
for any non-user message with text, then `break` into the timeout raise). -/
def poll_for_response (hist : Nat → List ChatMsg) (baseline : Nat) :
    Nat → Nat → Nat → Nat → PollResult
  | _, 0, _, _ => .timeout
  | t, fuel + 1, lastCount, idlePolls =>
    let messages := hist t
    let newMessages := messages.drop baseline
    match findRev (fun m => decide (m.role ≠ "user") && is_error_response m) newMessages with
    | some m => .errorResp t (m.errorMessage.getD "Unknown LLM provider error")
    | none =>
      match findRev (fun m =>
          decide (m.role ≠ "user") && optTruthy m.model && has_content m) newMessages with
      | some m => .found t m
      | none =>
        let active := decide (lastCount < messages.length)
        let lc := if active then messages.length else lastCount
        let ip := if active then 0 else idlePolls + 1
        if 20 ≤ ip then
          match findRev (fun m => decide (m.role ≠ "user") && has_content m) newMessages with
          | some m => .found t m
          | none => .timeout
        else
          poll_for_response hist baseline (t + 1) fuel lc ip

/-- `chat_send`: snapshot the history length *before* sending (poll 0),
send (fire-and-forget ack), then poll from poll 1 on with
`baseline_index = len(old_messages)`, `last_msg_count = baseline_index`
and `idle_polls = 0`. -/
def chat_send_poll (hist : Nat → List ChatMsg) (fuel : Nat) : PollResult :=
  poll_for_response hist (hist 0).length 1 fuel (hist 0).length 0

/-! ### Event-sequence gap tracking (`_listen_loop` / `connect`) -/

/-- The sequence-tracking slice of the client state: `_last_seq` and
`_gap_count`. -/
structure SeqState where
  lastSeq : Int
  gapCount : Nat
deriving DecidableEq

/-- One gap-detection record: the `logger.warning("Event gap detected
(expected seq ..., got ...); ... events missed")` line (and the
`_handle_seq_gap` task scheduled with it, once per detected jump). -/
structure GapLog where
  expected : Int
  got : Int
  missed : Int
deriving DecidableEq

/-- The sequence-tracking block of the `event` branch of `_listen_loop`:
for a frame carrying an integer `seq`, a forward jump past `last_seq + 1`
when `last_seq >= 0` bumps `_gap_count` and logs the gap once; in every
case `last_seq` is then set to the frame's `seq`. A frame without a usable
`seq` leaves the state untouched. -/
def seqStep (s : SeqState) (seq : Option Int) : SeqState × List GapLog :=
  match seq with
  | none => (s, [])
  | some q =>
    if 0 ≤ s.lastSeq ∧ s.lastSeq + 1 < q then
      ({ lastSeq := q, gapCount := s.gapCount + 1 },
        [⟨s.lastSeq + 1, q, (q - s.lastSeq - 1).toNat⟩])
    else
      ({ lastSeq := q, gapCount := s.gapCount }, [])

/-- `connect()` resets `self._last_seq = -1` (`_gap_count` is not reset). -/
def resetSeq (s : SeqState) : SeqState := { s with lastSeq := -1 }

/-- Process a run of sequenced event frames, keeping only the state. -/
def seqRun (s : SeqState) (seqs : List Int) : SeqState :=
  seqs.foldl (fun st q => (seqStep st (some q)).1) s

/-! ### Pending-waiter bookkeeping (`request`, `_listen_loop`,
`_flush_pending`) -/

/-- Status of one RPC waiter future as its caller observes it. -/
inductive WaiterStatus where
  | waiting
  | resolvedOk
  | resolvedErr (code msg : String)
  | timedOut
  | disconnected (reason : String)
deriving DecidableEq

/-- The waiter-relevant slice of the client state: the ids in the
`_pending` map, and the status of every future ever registered (futures
outlive their map entry — their callers hold them). -/
structure ClientState where
  pendingIds : List String
  waiters : List (String × WaiterStatus)
deriving DecidableEq

def initClient : ClientState := ⟨[], []⟩

/-- The operations that touch `_pending`:
`register` — `request` creates a fresh future and stores it under a fresh
uuid (freshness of `uuid.uuid4()` is modelled by making a duplicate
registration a no-op);
`resolve` — the read loop pops the id and resolves/rejects the future of a
`res` frame (`ok` or error `{code, message}`);
`timeout` — `asyncio.wait_for` expired in `request`: the entry is popped
and the caller gets `TimeoutError`;
`close` — `_flush_pending(reason)`: every still-unresolved pending future
is failed with `RuntimeError(reason)` and the map is cleared (run on
transport close, listen-loop error and `disconnect`). -/
inductive COp where
  | register (id : String)
  | resolve (id : String) (ok : Bool) (code msg : String)
  | timeout (id : String)
  | close (reason : String)
deriving DecidableEq

/-- First-match association lookup (the semantics of a Python dict read;
keys are unique because `request` draws fresh uuids). -/
def lookupW : List (String × WaiterStatus) → String → Option WaiterStatus
  | [], _ => none
  | p :: t, i => if p.1 = i then some p.2 else lookupW t i

def setWaiter (ws : List (String × WaiterStatus)) (i : String) (st : WaiterStatus) :
    List (String × WaiterStatus) :=
  ws.map fun p => if p.1 = i then (p.1, st) else p

def clientStep (s : ClientState) (op : COp) : ClientState :=
  match op with
  | .register i =>
    if (lookupW s.waiters i).isSome then s
    else ⟨i :: s.pendingIds, (i, .waiting) :: s.waiters⟩
  | .resolve i ok code msg =>
    if i ∈ s.pendingIds then
      ⟨s.pendingIds.erase i,
        setWaiter s.waiters i (if ok then .resolvedOk else .resolvedErr code msg)⟩
    else s
  | .timeout i =>
    if i ∈ s.pendingIds then
      ⟨s.pendingIds.erase i, setWaiter s.waiters i .timedOut⟩
    else s
  | .close reason =>
    ⟨[], s.waiters.map fun p =>
      if p.1 ∈ s.pendingIds ∧ p.2 = .waiting then (p.1, .disconnected reason) else p⟩

def clientRun (ops : List COp) : ClientState := ops.foldl clientStep initClient

/-! ## Isolated-workspace backend (`sub_agent.py`) -/

/-- The values `json.loads` can produce (numbers are modelled as integers;
none of the verified behavior depends on float semantics). -/
inductive Json where
  | null
  | bool (b : Bool)
  | num (n : Int)
  | str (s : String)
  | arr (items : List Json)
  | obj (fields : List (String × Json))

/-- Python truthiness of a JSON value (`if not file_path or not content`). -/
def jsonFalsy : Json → Bool
  | .null => true
  | .bool b => !b
  | .num n => decide (n = 0)
  | .str s => decide (s = "")
  | .arr l => l.isEmpty
  | .obj f => f.isEmpty

/-- The code-fence stripping prologue of `_apply_agent_changes`:
`cleaned = response_text.strip()`, and if it starts with three backticks,
drop the first line and a trailing fence line. -/
def stripCodeFence (s : String) : String :=
  let cleaned := trimS s
  if cleaned.data.take 3 = ['`', '`', '`'] then
    let lines := (cleaned.splitOn "\n").drop 1
    let lines :=
      if lines ≠ [] ∧ trimS ((lines.getLast?).getD "") = "```" then lines.dropLast
      else lines
    String.intercalate "\n" lines
  else cleaned

/-- Result of `_apply_agent_changes`: normal return carrying
`len(changes) > 0` and the file writes performed, or an uncaught exception
(only `json.JSONDecodeError` and `KeyError` are caught by the function). -/
inductive ApplyResult where
  | ok (changesApplied : Bool) (writes : List (String × String))
  | raised (err : String)
deriving DecidableEq

/-- The `for change in changes:` loop body: a non-dict element raises
`AttributeError` at `change.get` (uncaught); falsy `file_path`/`content`
entries are skipped; `git_manager.write_file` needs string arguments, so a
truthy non-string raises `TypeError` (uncaught); otherwise the file is
written. `action` is read only for logging. -/
def applyChangeItems : List Json → Option (List (String × String))
  | [] => some []
  | item :: rest =>
    match item with
    | .obj fields =>
      let fp := (fields.lookup "file_path").getD (.str "")
      let ct := (fields.lookup "content").getD (.str "")
      if jsonFalsy fp || jsonFalsy ct then applyChangeItems rest
      else
        match fp, ct with
        | .str p, .str c => (applyChangeItems rest).map fun ws => (p, c) :: ws
        | _, _ => none
    | _ => none

/-- `_apply_agent_changes(agent, response_text)` with `json.loads`
abstracted as the `parse` oracle. A parse failure (`JSONDecodeError`) is
caught and yields `False`; JSON whose top level is not an object raises
`AttributeError` at `data.get` (uncaught); a non-list `changes` value
raises when iterated over a non-string/dict or hits `AttributeError` on its
elements, except that an empty string/dict iterates zero times and falls
through to `return len(changes) > 0`. -/
def _apply_agent_changes (parse : String → Option Json) (worktreePath : Option String)
    (responseText : String) : ApplyResult :=
  match worktreePath with
  | none => .ok false []
  | some _ =>
    match parse (stripCodeFence responseText) with
    | none => .ok false []
    | some j =>
      match j with
      | .obj fields =>
        let changes := (fields.lookup "changes").getD (.arr [])
        match changes with
        | .arr items =>
          match applyChangeItems items with
          | some ws => .ok (decide (0 < items.length)) ws
          | none => .raised "error while applying a change"
        | .str s => if s = "" then .ok false [] else .raised "AttributeError on str element"
        | .obj f => if f.isEmpty then .ok false [] else .raised "AttributeError on dict key"
        | _ => .raised "TypeError: not iterable"
      | _ => .raised "AttributeError: get on non-object JSON"

/-- The status bookkeeping of `execute_sub_agent` downstream of
`_apply_agent_changes`: an uncaught exception lands in the outer `except`,
which marks the agent `failed` and the mission `Failed`; a normal return
commits exactly when changes were applied and a worktree exists, and marks
the agent `completed` and the mission `Completed`. -/
structure SubAgentRun where
  agentStatus : String
  missionStatus : String
  commitAttempted : Bool
deriving DecidableEq

def execute_sub_agent_finish (worktreeSet : Bool) (ar : ApplyResult) : SubAgentRun :=
  match ar with
  | .raised _ => ⟨"failed", "Failed", false⟩
  | .ok applied _ => ⟨"completed", "Completed", applied && worktreeSet⟩

/-- A fixed oracle for `json.loads` on the single input used by the C9
counterexample: the response text is the JSON string literal `"hello"`,
which `json.loads` parses to the Python `str` value `hello`. -/
def parseHelloStr : String → Option Json :=
  fun s => if s = "\"hello\"" then some (.str "hello") else none

/-! ## Remote orchestrator (`remote_orchestrator.py`) -/

/-- `\w` of Python's `re` restricted to ASCII (all inputs of interest are
ASCII). -/
def isWordChar (c : Char) : Bool := c.isAlphanum || c == '_'

/-- The pattern of `JASON_MENTION_RE`, `@jason` (case-insensitive). -/
def jasonPat : List Char := ['@', 'j', 'a', 's', 'o', 'n']

/-- Case-insensitive pattern match at the head of a character list,
returning the remainder on success. -/
def matchHeadCI : List Char → List Char → Option (List Char)
  | [], rest => some rest
  | _ :: _, [] => none
  | p :: ps, c :: cs => if c.toLower == p.toLower then matchHeadCI ps cs else none

/-- `JASON_MENTION_RE.sub("", message)`: replace every non-overlapping
`@jason` occurrence that sits at a word boundary (`\b` after the `n`:
end-of-string or a non-word character follows), scanning left to right and
resuming after each match, as `re.sub` does. The fuel argument (seeded with
the list length, which every step strictly decreases) makes the recursion
structural. -/
def subJasonFuel : Nat → List Char → List Char
  | 0, l => l
  | _ + 1, [] => []
  | fuel + 1, c :: cs =>
    match matchHeadCI jasonPat (c :: cs) with
    | some rest =>
      if rest.isEmpty || !isWordChar (rest.headD ' ') then subJasonFuel fuel rest
      else c :: subJasonFuel fuel cs
    | none => c :: subJasonFuel fuel cs

def subJason (l : List Char) : List Char := subJasonFuel l.length l

/-- Python `str.lstrip(",: ")`. -/
def pyLStrip (cset : List Char) (l : List Char) : List Char :=
  l.dropWhile fun c => cset.contains c

/-- `strip_jason_mention`: remove the mention, strip whitespace, strip
leading leftover punctuation, strip again. -/
def strip_jason_mention (message : String) : String :=
  let cleaned := pyStrip (subJason message.data)
  let cleaned := pyLStrip [',', ':', ' '] cleaned
  String.mk (pyStrip cleaned)

/-- Externally visible state changes performed by `handle_jason_mention`
up to the point it returns: Mission rows created, Agent rows created,
messages sent to the remote gateway, background completion monitors
started. -/
structure Effects where
  missionsCreated : Nat
  agentsCreated : Nat
  gatewaySends : Nat
  monitorsStarted : Nat
deriving DecidableEq

def noEffects : Effects := ⟨0, 0, 0, 0⟩

/-- The canned help reply of `handle_jason_mention` for an empty task. -/
def jasonHelpContent : String :=
  "Please provide a task after @jason. Example: `@jason build a login page`"

inductive HandleResult where
  | raised (msg : String)
  | returned (content : String) (eff : Effects)
deriving DecidableEq

/-- The prologue of `handle_jason_mention`: raise unless a connected client
exists; strip the mention; if nothing remains, return the canned help
response before any database write, gateway send or monitor spawn. The
remainder of the function (mission/agent creation, `chat_send`, completion
monitor) is abstracted as the continuation `rest` — the claim under
verification constrains only the empty-task branch, which returns first. -/
def handle_jason_mention (connected : Bool) (rest : String → HandleResult)
    (message : String) : HandleResult :=
  if !connected then .raised "Not connected to remote Jason"
  else
    let taskText := strip_jason_mention message
    if taskText = "" then .returned jasonHelpContent noEffects
    else rest taskText

/-! ## Auxiliary predicates and concrete fixtures used by the proofs -/

/-- Number of still-`PENDING` subtasks — the termination measure of the
wave loop. -/
def pendingCount (s : WaveState) : Nat :=
  s.subtasks.countP fun st => decide (st.status = .pending)

/-- Inductive invariant of the `_execute_subtasks` loop (for a task whose
subtask ids are distinct): the loop preserves ids and dependency lists;
statuses stay in {Pending, Completed, Failed} between waves; `completed_ids`
holds exactly the ids of `COMPLETED` subtasks; a subtask that has left
`PENDING` has all its dependencies `COMPLETED`; and the loop only breaks
once every subtask is terminal. -/
def WaveInv (sts0 : List Subtask) (s : WaveState) : Prop :=
  List.Forall₂ (fun a b => b.id = a.id ∧ b.dependsOn = a.dependsOn) sts0 s.subtasks
  ∧ (∀ st ∈ s.subtasks, st.status = .pending ∨ st.status = .completed ∨ st.status = .failed)
  ∧ (∀ c ∈ s.completedIds, ∃ st ∈ s.subtasks, st.id = c ∧ st.status = .completed)
  ∧ (∀ st ∈ s.subtasks, st.status = .completed → st.id ∈ s.completedIds)
  ∧ (∀ st ∈ s.subtasks, ∀ st' ∈ s.subtasks, st'.id ∈ st.dependsOn →
      st.status ≠ .pending → st'.status = .completed)
  ∧ (s.finished = true → allTerminal s.subtasks = true)

/-- Rank lookup for a concrete acyclicity certificate. -/
def rankOf (ranks : List (String × Nat)) (i : String) : Nat :=
  ((ranks.lookup i).getD 0)

/-- Decidable acyclicity certificate: every dependency points to an
existing subtask of strictly smaller rank. -/
def rankedB (sts : List Subtask) (ranks : List (String × Nat)) : Bool :=
  sts.all fun st => st.dependsOn.all fun d =>
    decide ((∃ st' ∈ sts, st'.id = d) ∧ rankOf ranks d < rankOf ranks st.id)

/-- Two-subtask fixture: `B` depends on `A`. -/
def stsAB : List Subtask :=
  [mkSubtask "A" "task a" "python-backend" [],
   mkSubtask "B" "task b" "react-frontend" ["A"]]

/-- Execution oracle for the fixture: `A` raises, everything else
succeeds. -/
def outcomeAB : String → ExecOutcome :=
  fun i => if i = "A" then .exc "boom" else .ok "done"

/-- Execution oracle where every subtask succeeds. -/
def outcomeOk : String → ExecOutcome := fun _ => .ok "done"

/-- Concrete task description on which the source heuristic and the spec's
description of it disagree. -/
def demoTask : String := "use react and typescript to build an api"

/-- Chat-history fixture: the user message present before `chat.send`. -/
def userMsgFix : ChatMsg := ⟨"user", none, "hi", none, none⟩

/-- Chat-history fixture: the assistant reply that appears from poll 1 on. -/
def replyMsgFix : ChatMsg := ⟨"assistant", some "m", "ans", none, none⟩

/-- Chat-history oracle: one old user message at baseline time, the reply
appended afterwards. -/
def histFix : Nat → List ChatMsg :=
  fun t => if t = 0 then [userMsgFix] else [userMsgFix, replyMsgFix]

/-! ## Theorems -/

/-- Unfolding of `seqStep` on a frame that does carry a `seq`. -/
theorem seqStep_some_eq (s : SeqState) (q : Int) :
    seqStep s (some q) =
      if 0 ≤ s.lastSeq ∧ s.lastSeq + 1 < q then
        ({ lastSeq := q, gapCount := s.gapCount + 1 },
          [⟨s.lastSeq + 1, q, (q - s.lastSeq - 1).toNat⟩])
      else ({ lastSeq := q, gapCount := s.gapCount }, []) := rfl

/-- The listen loop stores every integer `seq` it sees into `_last_seq`. -/
theorem seqStep_some_lastSeq (s : SeqState) (q : Int) :
    ((seqStep s (some q)).1).lastSeq = q := by
  rw [seqStep_some_eq]
  split <;> rfl

/-- After processing at least one sequenced frame, `_last_seq` is the last
frame's `seq`. -/
theorem seqRun_append_lastSeq (s : SeqState) (l : List Int) (a : Int) :
    (seqRun s (l ++ [a])).lastSeq = a := by
  unfold seqRun
  rw [List.foldl_append]
  simp only [List.foldl_cons, List.foldl_nil]
  exact seqStep_some_lastSeq _ a

/-- C6: after `connect()` resets `last_seq` to `-1`, for every sequenced
event frame processed by the read loop whose predecessor frame carried the
(necessarily nonnegative) sequence number `a`: a frame with `seq = a + 1`
produces no gap log and leaves the gap counter unchanged, while a frame
with `seq = a + 3` increments the gap counter by exactly one and logs the
gap exactly once (two events missed). -/
theorem C6_seq_gap_tracking (s0 : SeqState) (pre : List Int) (a b : Int)
    (ha : 0 ≤ a) :
    (b = a + 1 →
      seqStep (seqRun (resetSeq s0) (pre ++ [a])) (some b) =
        ({ lastSeq := b, gapCount := (seqRun (resetSeq s0) (pre ++ [a])).gapCount }, []))
    ∧ (b = a + 3 →
      (seqStep (seqRun (resetSeq s0) (pre ++ [a])) (some b)).1.gapCount =
          (seqRun (resetSeq s0) (pre ++ [a])).gapCount + 1
        ∧ (seqStep (seqRun (resetSeq s0) (pre ++ [a])) (some b)).2 = [⟨a + 1, b, 2⟩]) := by
  have hlast := seqRun_append_lastSeq (resetSeq s0) pre a
  constructor
  · rintro rfl
    rw [seqStep_some_eq, hlast, if_neg (by omega)]
  · rintro rfl
    rw [seqStep_some_eq, hlast, if_pos (by omega)]
    refine ⟨rfl, ?_⟩
    have : (a + 3 - a - 1 : Int).toNat = 2 := by omega
    simp [this]

/-- Witness for C6 at a concrete trace: connect-reset, then frames with
seq 0 and 1; a following frame with seq 2 (a jump of +1) logs nothing,
while seq 4 (a jump of +3) bumps the counter once and logs once. -/
theorem C6_seq_gap_tracking_witness :
    ((0 : Int) ≤ 1)
    ∧ ((2 = (1 : Int) + 1 →
        seqStep (seqRun (resetSeq ⟨7, 4⟩) ([0] ++ [1])) (some 2) =
          ({ lastSeq := 2, gapCount := (seqRun (resetSeq ⟨7, 4⟩) ([0] ++ [1])).gapCount }, []))
      ∧ (2 = (1 : Int) + 3 →
        (seqStep (seqRun (resetSeq ⟨7, 4⟩) ([0] ++ [1])) (some 2)).1.gapCount =
            (seqRun (resetSeq ⟨7, 4⟩) ([0] ++ [1])).gapCount + 1
          ∧ (seqStep (seqRun (resetSeq ⟨7, 4⟩) ([0] ++ [1])) (some 2)).2 = [⟨1 + 1, 2, 2⟩])) :=
  ⟨by norm_num, C6_seq_gap_tracking ⟨7, 4⟩ [0] 1 2 (by norm_num)⟩

/-- C8: whatever the review oracle produces — an `approved` verdict, a
`changes_requested` verdict, or a raised exception (auto-approved) — the
subtask ends up `COMPLETED` with `completed_at` stamped; only the
`changes_requested` branch additionally records the feedback note. -/
theorem C8_completed_regardless_of_verdict (ro : ReviewOutcome) :
    (finishAfterReview ro).status = .completed
    ∧ (finishAfterReview ro).completedAtSet = true
    ∧ (∀ e, finishAfterReview (.failure e) = ⟨.completed, true, none⟩)
    ∧ (∀ s f, finishAfterReview (.success ⟨some "changes_requested", s, some f⟩) =
        ⟨.completed, true, some f⟩) := by
  refine ⟨?_, ?_, fun e => rfl, fun s f => rfl⟩ <;>
  · unfold finishAfterReview reviewResult
    rcases ro with d | e
    · dsimp only
      split <;> rfl
    · rfl

/-- C10: an `@jason` mention whose task text strips to nothing gets the
canned help response back, with no mission or agent created, nothing sent
to the gateway and no completion monitor started. -/
theorem C10_empty_mention_no_effects (rest : String → HandleResult) (message : String)
    (h : strip_jason_mention message = "") :
    handle_jason_mention true rest message = .returned jasonHelpContent noEffects := by
  unfold handle_jason_mention
  simp [h]

/-- Witness for C10: the bare message `@jason` strips to the empty task and
takes the canned-help branch. -/
theorem C10_empty_mention_no_effects_witness :
    strip_jason_mention "@jason" = ""
    ∧ handle_jason_mention true (fun t => .raised t) "@jason" =
        .returned jasonHelpContent noEffects :=
  ⟨by decide, C10_empty_mention_no_effects (fun t => .raised t) "@jason" (by decide)⟩

/-- C9 (amended): when the model response is not valid JSON at all (after
code-fence stripping), `_apply_agent_changes` returns `False` without
raising, writes no file, and `execute_sub_agent` still finishes with the
agent `completed` and the mission `Completed`, with no commit attempted. -/
theorem C9_unparseable_response_nonfatal (parse : String → Option Json)
    (wt : Option String) (resp : String) (b : Bool)
    (h : parse (stripCodeFence resp) = none) :
    _apply_agent_changes parse wt resp = .ok false []
    ∧ execute_sub_agent_finish b (_apply_agent_changes parse wt resp) =
        ⟨"completed", "Completed", false⟩ := by
  have happly : _apply_agent_changes parse wt resp = .ok false [] := by
    unfold _apply_agent_changes
    cases wt with
    | none => rfl
    | some w => rw [h]
  refine ⟨happly, ?_⟩
  rw [happly]
  unfold execute_sub_agent_finish
  simp

/-- Witness for C9 (amended): a response the JSON oracle rejects. -/
theorem C9_unparseable_response_nonfatal_witness :
    ((fun _ => (none : Option Json)) (stripCodeFence "not json") = none)
    ∧ _apply_agent_changes (fun _ => none) (some "wt") "not json" = .ok false []
    ∧ execute_sub_agent_finish true (_apply_agent_changes (fun _ => none) (some "wt") "not json") =
        ⟨"completed", "Completed", false⟩ :=
  ⟨rfl, C9_unparseable_response_nonfatal (fun _ => none) (some "wt") "not json" true rfl⟩

/-- C9 counterexample: the response `"hello"` — a valid JSON document that
cannot be parsed as the structured list of file changes — makes
`_apply_agent_changes` raise `AttributeError` at `data.get` (only
`JSONDecodeError` and `KeyError` are caught), so the run lands in the outer
`except` and the mission is marked `Failed`, not `Completed`. -/
theorem C9_counterexample :
    _apply_agent_changes parseHelloStr (some "wt") "\"hello\"" =
        .raised "AttributeError: get on non-object JSON"
    ∧ (execute_sub_agent_finish true
        (_apply_agent_changes parseHelloStr (some "wt") "\"hello\"")).missionStatus = "Failed"
    ∧ ("Failed" : String) ≠ "Completed" := by
  refine ⟨by decide, by decide, by decide⟩

/-- C5 counterexample: on the task description
`"use react and typescript to build an api"` the source heuristic
(`match_template`, an arg-max over tag-hit scores) picks `react-frontend`
(2 hits), while the claim's "first agent type scoring at least one tag
hit" would pick `python-backend` (1 hit, earlier in the catalog) — so the
synthetic subtask created for an empty plan does not carry the agent type
the claim describes. -/
theorem C5_counterexample :
    match_template demoTask = "react-frontend"
    ∧ specFirstHitHeuristic demoTask = "python-backend"
    ∧ match_template demoTask ≠ specFirstHitHeuristic demoTask
    ∧ buildSubtasks (.ok []) demoTask =
        [mkSubtask "subtask-1" demoTask (match_template demoTask) []] := by
  refine ⟨by decide, by decide, by decide, by decide⟩

/-- C2 counterexample: the acyclic two-subtask graph where `B` depends on
`A` and `A`'s execution raises: the wave loop runs its bounded iterations
and exits, but `B` is still `PENDING` — not in a terminal state — when it
does. -/
theorem C2_counterexample :
    rankedB stsAB [("A", 0), ("B", 1)] = true
    ∧ (∀ st ∈ stsAB, st.status = .pending)
    ∧ allTerminal (runWaves outcomeAB stsAB).subtasks = false := by
  refine ⟨by decide, by decide, by decide⟩

/-! ### Wave-loop lemmas -/

theorem mem_readySet {sts : List Subtask} {cids : List String} {st : Subtask} :
    st ∈ readySet sts cids ↔
      st ∈ sts ∧ st.status = .pending ∧ ∀ d ∈ st.dependsOn, d ∈ cids := by
  simp [readySet, List.mem_filter]

theorem execOne_id (outcome : String → ExecOutcome) (st : Subtask) :
    (execOne outcome st).id = st.id := by
  unfold execOne
  cases outcome st.id <;> rfl

theorem execOne_dependsOn (outcome : String → ExecOutcome) (st : Subtask) :
    (execOne outcome st).dependsOn = st.dependsOn := by
  unfold execOne
  cases outcome st.id <;> rfl

theorem execOne_status_or (outcome : String → ExecOutcome) (st : Subtask) :
    (execOne outcome st).status = .completed ∨ (execOne outcome st).status = .failed := by
  unfold execOne
  cases outcome st.id
  · exact Or.inl rfl
  · exact Or.inr rfl

theorem execOne_status_ne_pending (outcome : String → ExecOutcome) (st : Subtask) :
    (execOne outcome st).status ≠ .pending := by
  rcases execOne_status_or outcome st with h | h <;> simp [h]

theorem execOne_of_ok {outcome : String → ExecOutcome} {st : Subtask} {r : String}
    (h : outcome st.id = .ok r) :
    execOne outcome st = { st with status := .completed, result := some r } := by
  unfold execOne
  rw [h]

theorem execOne_of_exc {outcome : String → ExecOutcome} {st : Subtask} {m : String}
    (h : outcome st.id = .exc m) :
    execOne outcome st = { st with status := .failed, error := some m } := by
  unfold execOne
  rw [h]

theorem waveStep_finished {outcome : String → ExecOutcome} {s : WaveState}
    (h : s.finished = true) : waveStep outcome s = s := by
  unfold waveStep
  rw [if_pos h]

theorem waveStep_break {outcome : String → ExecOutcome} {s : WaveState}
    (hf : s.finished = false) (hR : readySet s.subtasks s.completedIds = [])
    (hT : allTerminal s.subtasks = true) :
    waveStep outcome s = { s with finished := true } := by
  unfold waveStep
  rw [if_neg (by simp [hf]), hR]
  simp [hT]

theorem waveStep_stall {outcome : String → ExecOutcome} {s : WaveState}
    (hf : s.finished = false) (hR : readySet s.subtasks s.completedIds = [])
    (hT : allTerminal s.subtasks = false) :
    waveStep outcome s = s := by
  unfold waveStep
  rw [if_neg (by simp [hf]), hR]
  simp [hT]

theorem waveStep_go {outcome : String → ExecOutcome} {s : WaveState}
    (hf : s.finished = false) (hR : readySet s.subtasks s.completedIds ≠ []) :
    waveStep outcome s =
      ⟨waveUpdate outcome s.subtasks s.completedIds,
        waveNewCids outcome s.subtasks s.completedIds, false⟩ := by
  unfold waveStep
  rw [if_neg (by simp [hf]), if_neg (by simp [List.isEmpty_iff, hR])]

theorem forall₂_ids_eq {sts0 sts1 : List Subtask}
    (h : List.Forall₂ (fun a b => b.id = a.id ∧ b.dependsOn = a.dependsOn) sts0 sts1) :
    sts1.map Subtask.id = sts0.map Subtask.id := by
  induction h with
  | nil => rfl
  | cons hab _ ih => simp [ih, hab.1]

theorem forall₂_exists_right {α β : Type} {R : α → β → Prop} {l1 : List α} {l2 : List β}
    (h : List.Forall₂ R l1 l2) : ∀ {a : α}, a ∈ l1 → ∃ b ∈ l2, R a b := by
  induction h with
  | nil => intro a ha; cases ha
  | cons hab hF ih =>
    intro a ha
    rcases List.mem_cons.mp ha with rfl | ha
    · exact ⟨_, List.mem_cons_self _ _, hab⟩
    · obtain ⟨b, hb, hRb⟩ := ih ha
      exact ⟨b, List.mem_cons_of_mem _ hb, hRb⟩

/-- With distinct subtask ids, the in-place update of a wave touches a
subtask exactly when it is in the ready set. -/
theorem any_id_iff {sts : List Subtask} {cids : List String}
    (hN : (sts.map Subtask.id).Nodup) {st : Subtask} (hst : st ∈ sts) :
    ((readySet sts cids).any fun r => decide (r.id = st.id)) = true ↔
      st ∈ readySet sts cids := by
  constructor
  · intro h
    obtain ⟨r, hr, he⟩ := List.any_eq_true.mp h
    have hre : r.id = st.id := of_decide_eq_true he
    have hrmem : r ∈ sts := (mem_readySet.mp hr).1
    have : r = st := List.inj_on_of_nodup_map hN hrmem hst hre
    exact this ▸ hr
  · intro h
    exact List.any_eq_true.mpr ⟨st, h, by simp⟩

theorem waveInv_init (sts : List Subtask) (hP : ∀ st ∈ sts, st.status = .pending) :
    WaveInv sts (initState sts) := by
  refine ⟨List.forall₂_same.mpr fun a _ => ⟨rfl, rfl⟩, ?_, ?_, ?_, ?_, ?_⟩
  · intro st h
    exact Or.inl (hP st h)
  · intro c hc
    cases hc
  · intro st h hc
    rw [hP st h] at hc
    cases hc
  · intro st h st' h' hdep hnp
    exact absurd (hP st h) hnp
  · intro hfin
    cases hfin

theorem waveInv_step (outcome : String → ExecOutcome) (sts0 : List Subtask)
    (s : WaveState) (hN : (sts0.map Subtask.id).Nodup) (hinv : WaveInv sts0 s) :
    WaveInv sts0 (waveStep outcome s) := by
  obtain ⟨h₁, h₂, h₃, h₄, h₅, h₆⟩ := hinv
  have hids : s.subtasks.map Subtask.id = sts0.map Subtask.id := forall₂_ids_eq h₁
  have hN' : (s.subtasks.map Subtask.id).Nodup := hids ▸ hN
  by_cases hf : s.finished = true
  · rw [waveStep_finished hf]
    exact ⟨h₁, h₂, h₃, h₄, h₅, h₆⟩
  · have hf' : s.finished = false := by
      revert hf
      cases s.finished <;> simp
    by_cases hR : readySet s.subtasks s.completedIds = []
    · by_cases hT : allTerminal s.subtasks = true
      · rw [waveStep_break hf' hR hT]
        exact ⟨h₁, h₂, h₃, h₄, h₅, fun _ => hT⟩
      · have hT' : allTerminal s.subtasks = false := by
          revert hT
          cases allTerminal s.subtasks <;> simp
        rw [waveStep_stall hf' hR hT']
        exact ⟨h₁, h₂, h₃, h₄, h₅, h₆⟩
    · rw [waveStep_go hf' hR]
      -- abbreviations for the productive branch
      have gdef : waveUpdate outcome s.subtasks s.completedIds = s.subtasks.map
          (fun st => if (readySet s.subtasks s.completedIds).any
            (fun r => decide (r.id = st.id)) then execOne outcome st else st) := rfl
      have hg_id : ∀ b : Subtask,
          ((if (readySet s.subtasks s.completedIds).any
              (fun r => decide (r.id = b.id)) then execOne outcome b else b)).id = b.id := by
        intro b
        split
        · exact execOne_id outcome b
        · rfl
      have hg_deps : ∀ b : Subtask,
          ((if (readySet s.subtasks s.completedIds).any
              (fun r => decide (r.id = b.id)) then execOne outcome b else b)).dependsOn =
            b.dependsOn := by
        intro b
        split
        · exact execOne_dependsOn outcome b
        · rfl
      have hg_touched : ∀ b ∈ s.subtasks, b ∈ readySet s.subtasks s.completedIds →
          (if (readySet s.subtasks s.completedIds).any
            (fun r => decide (r.id = b.id)) then execOne outcome b else b) =
              execOne outcome b := by
        intro b hb hbR
        rw [if_pos ((any_id_iff hN' hb).mpr hbR)]
      have hg_untouched : ∀ b ∈ s.subtasks, b ∉ readySet s.subtasks s.completedIds →
          (if (readySet s.subtasks s.completedIds).any
            (fun r => decide (r.id = b.id)) then execOne outcome b else b) = b := by
        intro b hb hbR
        rw [if_neg fun hc => hbR ((any_id_iff hN' hb).mp hc)]
      have hnotready_of_completed : ∀ b ∈ s.subtasks, b.status = .completed →
          b ∉ readySet s.subtasks s.completedIds := by
        intro b _ hc hbR
        have := (mem_readySet.mp hbR).2.1
        rw [hc] at this
        cases this
      refine ⟨?_, ?_, ?_, ?_, ?_, ?_⟩
      · -- ids and dependency lists preserved
        show List.Forall₂ _ sts0 (waveUpdate outcome s.subtasks s.completedIds)
        rw [gdef]
        rw [List.forall₂_map_right_iff]
        refine h₁.imp fun a b hab => ⟨?_, ?_⟩
        · rw [hg_id b, hab.1]
        · rw [hg_deps b, hab.2]
      · -- status trichotomy
        intro st' hmem
        rw [gdef] at hmem
        obtain ⟨b, hb, rfl⟩ := List.mem_map.mp hmem
        by_cases hbR : b ∈ readySet s.subtasks s.completedIds
        · rw [hg_touched b hb hbR]
          rcases execOne_status_or outcome b with h | h
          · exact Or.inr (Or.inl h)
          · exact Or.inr (Or.inr h)
        · rw [hg_untouched b hb hbR]
          exact h₂ b hb
      · -- every id in completed_ids names a completed subtask
        intro c hc
        rcases List.mem_append.mp hc with hold | hnew
        · obtain ⟨st, hst, hstc, hcomp⟩ := h₃ c hold
          have hstR : st ∉ readySet s.subtasks s.completedIds :=
            hnotready_of_completed st hst hcomp
          refine ⟨st, ?_, hstc, hcomp⟩
          rw [gdef]
          exact List.mem_map.mpr ⟨st, hst, hg_untouched st hst hstR⟩
        · obtain ⟨r, hrf, rfl⟩ := List.mem_map.mp hnew
          obtain ⟨hrR, hrok⟩ := List.mem_filter.mp hrf
          have hrmem : r ∈ s.subtasks := (mem_readySet.mp hrR).1
          refine ⟨execOne outcome r, ?_, execOne_id outcome r, of_decide_eq_true hrok⟩
          rw [gdef]
          exact List.mem_map.mpr ⟨r, hrmem, hg_touched r hrmem hrR⟩
      · -- every completed subtask's id is in completed_ids
        intro st' hmem hco
        rw [gdef] at hmem
        obtain ⟨b, hb, rfl⟩ := List.mem_map.mp hmem
        by_cases hbR : b ∈ readySet s.subtasks s.completedIds
        · rw [hg_touched b hb hbR] at hco ⊢
          rw [execOne_id outcome b]
          refine List.mem_append.mpr (Or.inr ?_)
          refine List.mem_map.mpr ⟨b, List.mem_filter.mpr ⟨hbR, decide_eq_true hco⟩, ?_⟩
          rfl
        · rw [hg_untouched b hb hbR] at hco ⊢
          exact List.mem_append.mpr (Or.inl (h₄ b hb hco))
      · -- a non-pending subtask has all its dependencies completed
        intro a' ha' b' hb' hdep hnp
        rw [gdef] at ha' hb'
        obtain ⟨a, haS, rfl⟩ := List.mem_map.mp ha'
        obtain ⟨b, hbS, rfl⟩ := List.mem_map.mp hb'
        rw [hg_id b] at hdep
        rw [hg_deps a] at hdep
        have hbcomp : b.status = .completed := by
          by_cases haR : a ∈ readySet s.subtasks s.completedIds
          · have hdeps := (mem_readySet.mp haR).2.2
            have hbid : b.id ∈ s.completedIds := hdeps b.id hdep
            obtain ⟨stc, hstc, hstcid, hstccomp⟩ := h₃ b.id hbid
            have : stc = b := List.inj_on_of_nodup_map hN' hstc hbS hstcid
            rw [← this]
            exact hstccomp
          · rw [hg_untouched a haS haR] at hnp
            exact h₅ a haS b hbS hdep hnp
        have hbR : b ∉ readySet s.subtasks s.completedIds :=
          hnotready_of_completed b hbS hbcomp
        rw [hg_untouched b hbS hbR]
        exact hbcomp
      · -- the break flag is still down
        intro hfin
        cases hfin

theorem waveInv_iter (outcome : String → ExecOutcome) (sts0 : List Subtask)
    (hN : (sts0.map Subtask.id).Nodup) :
    ∀ (n : Nat) (s : WaveState), WaveInv sts0 s → WaveInv sts0 (iterWaves outcome n s) := by
  intro n
  induction n with
  | zero => intro s h; exact h
  | succ m ih =>
    intro s h
    exact ih (waveStep outcome s) (waveInv_step outcome sts0 s hN h)

/-- C1: in the wave loop on a task with distinct subtask ids (in
particular on any acyclic plan), at every iteration a subtask enters the
ready set — leaves `PENDING` for `EXECUTING` — only when every id in its
`depends_on` belongs to a `COMPLETED` subtask; dually a subtask one of
whose dependencies is `FAILED` is still `PENDING`, whatever else happened
(B never leaves `PENDING` when its dependency A failed); and the synthesis
input is built totally, one line per subtask, over the resulting mixed
statuses. -/
theorem C1_never_dispatched_before_deps_completed (outcome : String → ExecOutcome)
    (sts : List Subtask) (n : Nat)
    (hN : (sts.map Subtask.id).Nodup)
    (hP : ∀ st ∈ sts, st.status = .pending) :
    (∀ st ∈ readySet (iterWaves outcome n (initState sts)).subtasks
        (iterWaves outcome n (initState sts)).completedIds,
      ∀ d ∈ st.dependsOn,
        ∃ st' ∈ (iterWaves outcome n (initState sts)).subtasks,
          st'.id = d ∧ st'.status = .completed)
    ∧ (∀ st ∈ (iterWaves outcome n (initState sts)).subtasks,
        ∀ st' ∈ (iterWaves outcome n (initState sts)).subtasks,
          st'.id ∈ st.dependsOn → st'.status = .failed → st.status = .pending)
    ∧ (synthInputLines (iterWaves outcome n (initState sts)).subtasks).length =
        (iterWaves outcome n (initState sts)).subtasks.length := by
  obtain ⟨h₁, h₂, h₃, h₄, h₅, h₆⟩ :=
    waveInv_iter outcome sts hN n (initState sts) (waveInv_init sts hP)
  refine ⟨?_, ?_, ?_⟩
  · intro st hst d hd
    exact h₃ d ((mem_readySet.mp hst).2.2 d hd)
  · intro st hst st' hst' hdep hfail
    by_contra hnp
    have hc := h₅ st hst st' hst' hdep hnp
    rw [hfail] at hc
    cases hc
  · simp [synthInputLines]

/-- Witness for C1 on the two-subtask fixture (B depends on A, A raises),
after the wave that fails A: B is still pending because its dependency
failed, and the synthesis input covers both subtasks. -/
theorem C1_never_dispatched_before_deps_completed_witness :
    ((stsAB.map Subtask.id).Nodup ∧ (∀ st ∈ stsAB, st.status = .pending))
    ∧ ((∀ st ∈ readySet (iterWaves outcomeAB 1 (initState stsAB)).subtasks
          (iterWaves outcomeAB 1 (initState stsAB)).completedIds,
        ∀ d ∈ st.dependsOn,
          ∃ st' ∈ (iterWaves outcomeAB 1 (initState stsAB)).subtasks,
            st'.id = d ∧ st'.status = .completed)
      ∧ (∀ st ∈ (iterWaves outcomeAB 1 (initState stsAB)).subtasks,
          ∀ st' ∈ (iterWaves outcomeAB 1 (initState stsAB)).subtasks,
            st'.id ∈ st.dependsOn → st'.status = .failed → st.status = .pending)
      ∧ (synthInputLines (iterWaves outcomeAB 1 (initState stsAB)).subtasks).length =
          (iterWaves outcomeAB 1 (initState stsAB)).subtasks.length) :=
  ⟨⟨by decide, by decide⟩,
    C1_never_dispatched_before_deps_completed outcomeAB stsAB 1 (by decide) (by decide)⟩

/-- C3: a raise inside a subtask's execution never escapes the wave loop:
the loop keeps running (the break flag stays down), the raising subtask is
recorded as `FAILED` with the exception text as its `error`, and every
sibling dispatched in the same wave is still processed according to its own
outcome (a successful sibling ends `COMPLETED` with its result stored). -/
theorem C3_subtask_exception_captured (outcome : String → ExecOutcome) (s : WaveState)
    (st : Subtask) (hf : s.finished = false)
    (hst : st ∈ readySet s.subtasks s.completedIds) :
    (waveStep outcome s).finished = false
    ∧ (∀ m, outcome st.id = .exc m →
        ∃ st' ∈ (waveStep outcome s).subtasks,
          st'.id = st.id ∧ st'.status = .failed ∧ st'.error = some m)
    ∧ (∀ st₂ ∈ readySet s.subtasks s.completedIds, ∀ r, outcome st₂.id = .ok r →
        ∃ st' ∈ (waveStep outcome s).subtasks,
          st'.id = st₂.id ∧ st'.status = .completed ∧ st'.result = some r) := by
  have hR : readySet s.subtasks s.completedIds ≠ [] := by
    intro h
    rw [h] at hst
    cases hst
  rw [waveStep_go hf hR]
  have hmem : ∀ st₂ ∈ readySet s.subtasks s.completedIds,
      execOne outcome st₂ ∈ waveUpdate outcome s.subtasks s.completedIds := by
    intro st₂ hst₂
    have hs₂ : st₂ ∈ s.subtasks := (mem_readySet.mp hst₂).1
    have hany : ((readySet s.subtasks s.completedIds).any
        fun r => decide (r.id = st₂.id)) = true :=
      List.any_eq_true.mpr ⟨st₂, hst₂, by simp⟩
    exact List.mem_map.mpr ⟨st₂, hs₂, by rw [if_pos hany]⟩
  refine ⟨rfl, ?_, ?_⟩
  · intro m hm
    refine ⟨execOne outcome st, hmem st hst, execOne_id outcome st, ?_, ?_⟩
    · rw [execOne_of_exc hm]
    · rw [execOne_of_exc hm]
  · intro st₂ hst₂ r hr
    refine ⟨execOne outcome st₂, hmem st₂ hst₂, execOne_id outcome st₂, ?_, ?_⟩
    · rw [execOne_of_ok hr]
    · rw [execOne_of_ok hr]

/-- Witness for C3 on the fixture: both A (which raises) and B are ready in
the first wave of a dependency-free pair; A ends failed with the exception
text, B ends completed. -/
theorem C3_subtask_exception_captured_witness :
    ((initState [mkSubtask "A" "a" "t" [], mkSubtask "B" "b" "t" []]).finished = false
      ∧ mkSubtask "A" "a" "t" [] ∈
          readySet (initState [mkSubtask "A" "a" "t" [], mkSubtask "B" "b" "t" []]).subtasks
            (initState [mkSubtask "A" "a" "t" [], mkSubtask "B" "b" "t" []]).completedIds)
    ∧ ((waveStep outcomeAB (initState [mkSubtask "A" "a" "t" [], mkSubtask "B" "b" "t" []])).finished = false
      ∧ (∀ m, outcomeAB (mkSubtask "A" "a" "t" []).id = .exc m →
          ∃ st' ∈ (waveStep outcomeAB (initState [mkSubtask "A" "a" "t" [], mkSubtask "B" "b" "t" []])).subtasks,
            st'.id = (mkSubtask "A" "a" "t" []).id ∧ st'.status = .failed ∧ st'.error = some m)
      ∧ (∀ st₂ ∈ readySet (initState [mkSubtask "A" "a" "t" [], mkSubtask "B" "b" "t" []]).subtasks
            (initState [mkSubtask "A" "a" "t" [], mkSubtask "B" "b" "t" []]).completedIds,
          ∀ r, outcomeAB st₂.id = .ok r →
            ∃ st' ∈ (waveStep outcomeAB (initState [mkSubtask "A" "a" "t" [], mkSubtask "B" "b" "t" []])).subtasks,
              st'.id = st₂.id ∧ st'.status = .completed ∧ st'.result = some r)) :=
  ⟨⟨by decide, by decide⟩,
    C3_subtask_exception_captured outcomeAB
      (initState [mkSubtask "A" "a" "t" [], mkSubtask "B" "b" "t" []])
      (mkSubtask "A" "a" "t" []) (by decide) (by decide)⟩

/-! ### Termination of the wave loop -/

theorem countP_map_le {α : Type} (p : α → Bool) (g : α → α) (l : List α)
    (hle : ∀ x ∈ l, p (g x) = true → p x = true) :
    (l.map g).countP p ≤ l.countP p := by
  induction l with
  | nil => exact Nat.le_refl _
  | cons a t ih =>
    rw [List.map_cons, List.countP_cons, List.countP_cons]
    have ht := ih fun x hx => hle x (List.mem_cons_of_mem a hx)
    by_cases hga : p (g a) = true
    · rw [if_pos hga, if_pos (hle a (List.mem_cons_self a t) hga)]
      omega
    · rw [if_neg hga]
      split <;> omega

theorem countP_map_lt {α : Type} (p : α → Bool) (g : α → α) (l : List α)
    (hle : ∀ x ∈ l, p (g x) = true → p x = true)
    (x0 : α) (hx0 : x0 ∈ l) (hp : p x0 = true) (hgp : p (g x0) = false) :
    (l.map g).countP p < l.countP p := by
  induction l with
  | nil => cases hx0
  | cons a t ih =>
    rw [List.map_cons, List.countP_cons, List.countP_cons]
    have ht := countP_map_le p g t fun x hx => hle x (List.mem_cons_of_mem a hx)
    rcases List.mem_cons.mp hx0 with rfl | hx0t
    · rw [if_pos hp, if_neg (by rw [hgp]; exact Bool.false_ne_true)]
      omega
    · have hlt := ih (fun x hx => hle x (List.mem_cons_of_mem a hx)) hx0t
      by_cases hga : p (g a) = true
      · rw [if_pos hga, if_pos (hle a (List.mem_cons_self a t) hga)]
        omega
      · rw [if_neg hga]
        split <;> omega

/-- A productive iteration (nonempty ready set) strictly shrinks the number
of `PENDING` subtasks. -/
theorem pendingCount_lt_of_go (outcome : String → ExecOutcome) {s : WaveState}
    (hf : s.finished = false) (hR : readySet s.subtasks s.completedIds ≠ []) :
    pendingCount (waveStep outcome s) < pendingCount s := by
  rw [waveStep_go hf hR]
  show (waveUpdate outcome s.subtasks s.completedIds).countP _ < _
  unfold waveUpdate pendingCount
  obtain ⟨r, hr⟩ := List.exists_mem_of_ne_nil _ hR
  have hrmem : r ∈ s.subtasks := (mem_readySet.mp hr).1
  have hany : ((readySet s.subtasks s.completedIds).any
      fun q => decide (q.id = r.id)) = true :=
    List.any_eq_true.mpr ⟨r, hr, by simp⟩
  apply countP_map_lt _ _ _ ?_ r hrmem
  · exact decide_eq_true (mem_readySet.mp hr).2.1
  · rw [if_pos hany]
    exact decide_eq_false (execOne_status_ne_pending outcome r)
  · intro x _ hpgx
    by_cases hc : ((readySet s.subtasks s.completedIds).any
        fun q => decide (q.id = x.id)) = true
    · rw [if_pos hc] at hpgx
      exact absurd (of_decide_eq_true hpgx) (execOne_status_ne_pending outcome x)
    · rw [if_neg hc] at hpgx
      exact hpgx

/-- An iteration with an empty ready set changes neither the subtasks nor
`completed_ids` (it can only raise the break flag or sleep). -/
theorem waveStep_frozen_of_empty (outcome : String → ExecOutcome) {s : WaveState}
    (hR : readySet s.subtasks s.completedIds = []) :
    (waveStep outcome s).subtasks = s.subtasks
    ∧ (waveStep outcome s).completedIds = s.completedIds := by
  by_cases hf : s.finished = true
  · rw [waveStep_finished hf]
    exact ⟨rfl, rfl⟩
  · have hf' : s.finished = false := by
      revert hf
      cases s.finished <;> simp
    by_cases hT : allTerminal s.subtasks = true
    · rw [waveStep_break hf' hR hT]
      exact ⟨rfl, rfl⟩
    · have hT' : allTerminal s.subtasks = false := by
        revert hT
        cases allTerminal s.subtasks <;> simp
      rw [waveStep_stall hf' hR hT']
      exact ⟨rfl, rfl⟩

theorem iter_of_fix {outcome : String → ExecOutcome} {s : WaveState}
    (h : waveStep outcome s = s) : ∀ n, iterWaves outcome n s = s := by
  intro n
  induction n with
  | zero => rfl
  | succ m ih =>
    show iterWaves outcome m (waveStep outcome s) = s
    rw [h]
    exact ih

/-- Within a fuel budget exceeding the number of pending subtasks, the wave
loop reaches a state that further iterations do not change. -/
theorem reach_fix (outcome : String → ExecOutcome) :
    ∀ (fuel : Nat) (s : WaveState), pendingCount s < fuel →
      waveStep outcome (iterWaves outcome fuel s) = iterWaves outcome fuel s := by
  intro fuel
  induction fuel with
  | zero => intro s h; exact absurd h (Nat.not_lt_zero _)
  | succ m ih =>
    intro s h
    show waveStep outcome (iterWaves outcome m (waveStep outcome s)) =
      iterWaves outcome m (waveStep outcome s)
    by_cases hf : s.finished = true
    · rw [waveStep_finished hf, iter_of_fix (waveStep_finished hf) m]
      exact waveStep_finished hf
    · have hf' : s.finished = false := by
        revert hf
        cases s.finished <;> simp
      by_cases hR : readySet s.subtasks s.completedIds = []
      · by_cases hT : allTerminal s.subtasks = true
        · rw [waveStep_break hf' hR hT]
          have hfix : waveStep outcome { s with finished := true } =
              { s with finished := true } := waveStep_finished rfl
          rw [iter_of_fix hfix m]
          exact hfix
        · have hT' : allTerminal s.subtasks = false := by
            revert hT
            cases allTerminal s.subtasks <;> simp
          have hfix : waveStep outcome s = s := waveStep_stall hf' hR hT'
          rw [hfix, iter_of_fix hfix m]
          exact hfix
      · have hlt := pendingCount_lt_of_go outcome hf' hR
        exact ih (waveStep outcome s) (by omega)

/-- At a fixed point of the loop that has not taken the break, the ready
set is empty. -/
theorem ready_empty_of_fix (outcome : String → ExecOutcome) {s : WaveState}
    (hfix : waveStep outcome s = s) (hf : s.finished = false) :
    readySet s.subtasks s.completedIds = [] := by
  by_contra hR
  have := pendingCount_lt_of_go outcome hf hR
  rw [hfix] at this
  exact absurd this (lt_irrefl _)

theorem forall₂_exists_left {α β : Type} {R : α → β → Prop} {l1 : List α} {l2 : List β}
    (h : List.Forall₂ R l1 l2) : ∀ {b : β}, b ∈ l2 → ∃ a ∈ l1, R a b := by
  induction h with
  | nil => intro b hb; cases hb
  | cons hab hF ih =>
    intro b hb
    rcases List.mem_cons.mp hb with rfl | hb
    · exact ⟨_, List.mem_cons_self _ _, hab⟩
    · obtain ⟨a, ha, hRa⟩ := ih hb
      exact ⟨a, List.mem_cons_of_mem _ ha, hRa⟩

/-- When every execution outcome succeeds, no subtask is ever marked
`FAILED`. -/
theorem noFailed_step (outcome : String → ExecOutcome)
    (hok : ∀ i, ∃ r, outcome i = .ok r) (s : WaveState)
    (h : ∀ st ∈ s.subtasks, st.status ≠ .failed) :
    ∀ st ∈ (waveStep outcome s).subtasks, st.status ≠ .failed := by
  by_cases hf : s.finished = true
  · rw [waveStep_finished hf]
    exact h
  · have hf' : s.finished = false := by
      revert hf
      cases s.finished <;> simp
    by_cases hR : readySet s.subtasks s.completedIds = []
    · intro st hst
      rw [(waveStep_frozen_of_empty outcome hR).1] at hst
      exact h st hst
    · rw [waveStep_go hf' hR]
      intro st' hst'
      obtain ⟨b, hb, rfl⟩ := List.mem_map.mp hst'
      by_cases hc : ((readySet s.subtasks s.completedIds).any
          fun q => decide (q.id = b.id)) = true
      · rw [if_pos hc]
        obtain ⟨r, hrr⟩ := hok b.id
        rw [execOne_of_ok hrr]
        intro hcon
        cases hcon
      · rw [if_neg hc]
        exact h b hb

theorem noFailed_iter (outcome : String → ExecOutcome)
    (hok : ∀ i, ∃ r, outcome i = .ok r) :
    ∀ (n : Nat) (s : WaveState), (∀ st ∈ s.subtasks, st.status ≠ .failed) →
      ∀ st ∈ (iterWaves outcome n s).subtasks, st.status ≠ .failed := by
  intro n
  induction n with
  | zero => intro s h; exact h
  | succ m ih =>
    intro s h
    exact ih (waveStep outcome s) (noFailed_step outcome hok s h)

/-- C2 (amended): on an acyclic plan with distinct subtask ids the wave
loop terminates — within its `subtask count + 5` iteration budget it
reaches a state that one more iteration does not change — and on
termination every subtask is `PENDING`, `COMPLETED` or `FAILED`; every
subtask left `PENDING` has a dependency no subtask completed (e.g. a failed
dependency); and when every execution succeeds, every subtask ends
`COMPLETED`. (As stated the claim is refuted by `C2_counterexample`: a
failed dependency strands its dependents in the non-terminal `PENDING`
state.) -/
theorem C2_wave_loop_terminates (outcome : String → ExecOutcome)
    (sts : List Subtask) (rank : String → Nat)
    (hN : (sts.map Subtask.id).Nodup)
    (hP : ∀ st ∈ sts, st.status = .pending)
    (hr : ∀ st ∈ sts, ∀ d ∈ st.dependsOn,
      (∃ st' ∈ sts, st'.id = d) ∧ rank d < rank st.id) :
    waveStep outcome (runWaves outcome sts) = runWaves outcome sts
    ∧ (∀ st ∈ (runWaves outcome sts).subtasks,
        st.status = .pending ∨ st.status = .completed ∨ st.status = .failed)
    ∧ (∀ st ∈ (runWaves outcome sts).subtasks, st.status = .pending →
        ∃ d ∈ st.dependsOn, ∀ st' ∈ (runWaves outcome sts).subtasks,
          st'.id = d → st'.status ≠ .completed)
    ∧ ((∀ i, ∃ r, outcome i = .ok r) →
        ∀ st ∈ (runWaves outcome sts).subtasks, st.status = .completed) := by
  have hrw : runWaves outcome sts = iterWaves outcome (sts.length + 5) (initState sts) := rfl
  have hfix : waveStep outcome (runWaves outcome sts) = runWaves outcome sts := by
    rw [hrw]
    apply reach_fix
    have : pendingCount (initState sts) ≤ sts.length := List.countP_le_length _
    omega
  obtain ⟨h₁, h₂, h₃, h₄, h₅, h₆⟩ :
      WaveInv sts (runWaves outcome sts) := by
    rw [hrw]
    exact waveInv_iter outcome sts hN (sts.length + 5) (initState sts) (waveInv_init sts hP)
  refine ⟨hfix, h₂, ?_, ?_⟩
  · -- a pending subtask has a dependency nothing completed
    intro st hst hpend
    by_cases hfin : (runWaves outcome sts).finished = true
    · exfalso
      rcases of_decide_eq_true (List.all_eq_true.mp (h₆ hfin) st hst) with hc | hfl
      · rw [hpend] at hc
        cases hc
      · rw [hpend] at hfl
        cases hfl
    · have hf' : (runWaves outcome sts).finished = false := by
        revert hfin
        cases (runWaves outcome sts).finished <;> simp
      have hRe := ready_empty_of_fix outcome hfix hf'
      have hd : ¬ ∀ d ∈ st.dependsOn, d ∈ (runWaves outcome sts).completedIds := by
        intro hall
        have : st ∈ readySet (runWaves outcome sts).subtasks
            (runWaves outcome sts).completedIds := mem_readySet.mpr ⟨hst, hpend, hall⟩
        rw [hRe] at this
        cases this
      push_neg at hd
      obtain ⟨d, hdm, hdn⟩ := hd
      refine ⟨d, hdm, ?_⟩
      intro st' hst' hideq hcomp
      apply hdn
      have := h₄ st' hst' hcomp
      rw [hideq] at this
      exact this
  · -- with only successful outcomes, everything completes
    intro hok
    have hnofail : ∀ st ∈ (runWaves outcome sts).subtasks, st.status ≠ .failed := by
      rw [hrw]
      apply noFailed_iter outcome hok (sts.length + 5) (initState sts)
      intro st h
      rw [hP st h]
      intro hc
      cases hc
    by_cases hfin : (runWaves outcome sts).finished = true
    · intro st hst
      rcases of_decide_eq_true (List.all_eq_true.mp (h₆ hfin) st hst) with hc | hfl
      · exact hc
      · exact absurd hfl (hnofail st hst)
    · have hf' : (runWaves outcome sts).finished = false := by
        revert hfin
        cases (runWaves outcome sts).finished <;> simp
      have hRe := ready_empty_of_fix outcome hfix hf'
      have main : ∀ k, ∀ st' ∈ (runWaves outcome sts).subtasks,
          rank st'.id < k → st'.status = .completed := by
        intro k
        induction k with
        | zero => intro st' _ hlt; exact absurd hlt (Nat.not_lt_zero _)
        | succ m ih =>
          intro st' hst' hlt
          rcases h₂ st' hst' with hp | hc | hfl
          · exfalso
            obtain ⟨a, haS, hRa⟩ := forall₂_exists_left h₁ hst'
            have hall : ∀ d ∈ st'.dependsOn, d ∈ (runWaves outcome sts).completedIds := by
              intro d hdm
              have hda : d ∈ a.dependsOn := by
                rw [← hRa.2]
                exact hdm
              obtain ⟨⟨a', ha'S, ha'id⟩, hrank⟩ := hr a haS d hda
              obtain ⟨b', hb'F, hRb'⟩ := forall₂_exists_right h₁ ha'S
              have hrkid : rank a.id = rank st'.id := by rw [hRa.1]
              have hrk : rank b'.id < m := by
                rw [hRb'.1, ha'id]
                omega
              have hmemc := h₄ b' hb'F (ih b' hb'F hrk)
              rw [hRb'.1, ha'id] at hmemc
              exact hmemc
            have : st' ∈ readySet (runWaves outcome sts).subtasks
                (runWaves outcome sts).completedIds := mem_readySet.mpr ⟨hst', hp, hall⟩
            rw [hRe] at this
            cases this
          · exact hc
          · exact absurd hfl (hnofail st' hst')
      intro st hst
      exact main (rank st.id + 1) st hst (Nat.lt_succ_self _)

/-- Witness for C2 (amended) on a two-subtask acyclic chain where every
execution succeeds. -/
theorem C2_wave_loop_terminates_witness :
    ((stsAB.map Subtask.id).Nodup
      ∧ (∀ st ∈ stsAB, st.status = .pending)
      ∧ (∀ st ∈ stsAB, ∀ d ∈ st.dependsOn,
          (∃ st' ∈ stsAB, st'.id = d)
            ∧ rankOf [("A", 0), ("B", 1)] d < rankOf [("A", 0), ("B", 1)] st.id))
    ∧ (waveStep outcomeOk (runWaves outcomeOk stsAB) = runWaves outcomeOk stsAB
      ∧ (∀ st ∈ (runWaves outcomeOk stsAB).subtasks,
          st.status = .pending ∨ st.status = .completed ∨ st.status = .failed)
      ∧ (∀ st ∈ (runWaves outcomeOk stsAB).subtasks, st.status = .pending →
          ∃ d ∈ st.dependsOn, ∀ st' ∈ (runWaves outcomeOk stsAB).subtasks,
            st'.id = d → st'.status ≠ .completed)
      ∧ ((∀ i, ∃ r, outcomeOk i = .ok r) →
          ∀ st ∈ (runWaves outcomeOk stsAB).subtasks, st.status = .completed)) :=
  ⟨⟨by decide, by decide, by decide⟩,
    C2_wave_loop_terminates outcomeOk stsAB (rankOf [("A", 0), ("B", 1)])
      (by decide) (by decide) (by decide)⟩

/-! ### Poll-loop lemmas -/

theorem findRev_mem {p : ChatMsg → Bool} {l : List ChatMsg} {m : ChatMsg}
    (h : findRev p l = some m) : m ∈ l := by
  unfold findRev at h
  exact List.mem_reverse.mp (List.mem_of_find?_eq_some h)

theorem exists_get?_of_mem_drop {l : List ChatMsg} {b : Nat} {m : ChatMsg}
    (h : m ∈ l.drop b) : ∃ i, b ≤ i ∧ l.get? i = some m := by
  obtain ⟨j, hj⟩ := List.mem_iff_get?.mp h
  exact ⟨b + j, Nat.le_add_right b j, by rw [← List.get?_drop]; exact hj⟩

/-- Whatever `_poll_for_response` returns, it is an element found in
`messages[baseline_index:]` of the poll that produced it. -/
theorem poll_found_after_baseline (hist : Nat → List ChatMsg) (baseline : Nat) :
    ∀ (fuel t lastCount idlePolls t' : Nat) (m : ChatMsg),
      poll_for_response hist baseline t fuel lastCount idlePolls = .found t' m →
      ∃ i, baseline ≤ i ∧ (hist t').get? i = some m := by
  intro fuel
  induction fuel with
  | zero =>
    intro t lc ip t' m h
    exact PollResult.noConfusion h
  | succ f ih =>
    intro t lc ip t' m h
    simp only [poll_for_response] at h
    split at h
    · exact PollResult.noConfusion h
    · split at h
      · -- found a new reply with model and text
        rename_i m2 heq
        injection h with ht hm
        subst ht
        subst hm
        exact exists_get?_of_mem_drop (findRev_mem heq)
      · -- activity bookkeeping, then idle fallback or recursion
        repeat' split at h
        all_goals
          first
          | exact PollResult.noConfusion h
          | exact ih _ _ _ _ _ h
          | (rename_i heqf
             injection h with ht hm
             subst ht
             subst hm
             exact exists_get?_of_mem_drop (findRev_mem heqf))

/-- C4: a message returned by the response poller — through the normal
path or the 20-idle-polls fallback — always sits at an index at or past the
baseline recorded before `chat.send`, whatever the earlier history
contains; in particular `chat_send` with a baseline of `len(old_messages)`
never returns a message below that index. -/
theorem C4_poll_only_returns_after_baseline (hist : Nat → List ChatMsg)
    (baseline t fuel lastCount idlePolls t' : Nat) (m : ChatMsg) :
    (poll_for_response hist baseline t fuel lastCount idlePolls = .found t' m →
      ∃ i, baseline ≤ i ∧ (hist t').get? i = some m)
    ∧ (chat_send_poll hist fuel = .found t' m →
      ∃ i, (hist 0).length ≤ i ∧ (hist t').get? i = some m) :=
  ⟨poll_found_after_baseline hist baseline fuel t lastCount idlePolls t' m,
    poll_found_after_baseline hist (hist 0).length fuel 1 (hist 0).length 0 t' m⟩

/-- Witness for C4 on a concrete history: the reply appended after a
one-message baseline is found at index 1 ≥ 1, never at index 0. -/
theorem C4_poll_only_returns_after_baseline_witness :
    chat_send_poll histFix 3 = .found 1 replyMsgFix
    ∧ ∃ i, (histFix 0).length ≤ i ∧ (histFix 1).get? i = some replyMsgFix :=
  ⟨by decide,
    (C4_poll_only_returns_after_baseline histFix 1 1 3 1 0 1 replyMsgFix).2 (by decide)⟩

/-! ### Pending-waiter lemmas -/

theorem lookupW_setWaiter_self (i : String) (st : WaiterStatus) :
    ∀ ws : List (String × WaiterStatus), (lookupW ws i).isSome →
      lookupW (setWaiter ws i st) i = some st := by
  intro ws
  induction ws with
  | nil => intro h; cases h
  | cons p t ih =>
    intro h
    unfold setWaiter at ih ⊢
    rw [List.map_cons]
    by_cases hpi : p.1 = i
    · rw [if_pos hpi]
      unfold lookupW
      rw [if_pos hpi]
    · rw [if_neg hpi]
      unfold lookupW
      rw [if_neg hpi]
      unfold lookupW at h
      rw [if_neg hpi] at h
      exact ih h

theorem lookupW_setWaiter_ne (i j : String) (st : WaiterStatus) (h : j ≠ i) :
    ∀ ws : List (String × WaiterStatus),
      lookupW (setWaiter ws i st) j = lookupW ws j := by
  intro ws
  induction ws with
  | nil => rfl
  | cons p t ih =>
    unfold setWaiter at ih ⊢
    rw [List.map_cons]
    by_cases hpi : p.1 = i
    · rw [if_pos hpi]
      unfold lookupW
      rw [if_neg (by rw [hpi]; exact fun he => h he.symm),
        if_neg (by rw [hpi]; exact fun he => h he.symm)]
      exact ih
    · rw [if_neg hpi]
      unfold lookupW
      by_cases hpj : p.1 = j
      · rw [if_pos hpj, if_pos hpj]
      · rw [if_neg hpj, if_neg hpj]
        exact ih

theorem lookupW_close (pend : List String) (reason : String) (i : String)
    (hip : i ∈ pend) :
    ∀ ws : List (String × WaiterStatus), lookupW ws i = some .waiting →
      lookupW (ws.map fun p =>
        if p.1 ∈ pend ∧ p.2 = .waiting then (p.1, WaiterStatus.disconnected reason)
        else p) i = some (.disconnected reason) := by
  intro ws
  induction ws with
  | nil => intro h; cases h
  | cons p t ih =>
    intro h
    unfold lookupW at h
    rw [List.map_cons]
    by_cases hpi : p.1 = i
    · rw [if_pos hpi] at h
      injection h with h
      rw [if_pos ⟨by rw [hpi]; exact hip, h⟩]
      unfold lookupW
      rw [if_pos hpi]
    · rw [if_neg hpi] at h
      have hkey : (if p.1 ∈ pend ∧ p.2 = .waiting
          then (p.1, WaiterStatus.disconnected reason) else p).1 = p.1 := by
        split <;> rfl
      unfold lookupW
      rw [if_neg (by rw [hkey]; exact hpi)]
      exact ih h

theorem clientStep_register_stale {s : ClientState} {i : String}
    (h : (lookupW s.waiters i).isSome = true) : clientStep s (.register i) = s := by
  simp only [clientStep]
  rw [if_pos h]

theorem clientStep_register_fresh {s : ClientState} {i : String}
    (h : ¬ (lookupW s.waiters i).isSome = true) :
    clientStep s (.register i) = ⟨i :: s.pendingIds, (i, .waiting) :: s.waiters⟩ := by
  simp only [clientStep]
  rw [if_neg h]

theorem clientStep_resolve_mem {s : ClientState} {i : String} {ok : Bool}
    {code msg : String} (h : i ∈ s.pendingIds) :
    clientStep s (.resolve i ok code msg) =
      ⟨s.pendingIds.erase i,
        setWaiter s.waiters i (if ok then .resolvedOk else .resolvedErr code msg)⟩ := by
  simp only [clientStep]
  rw [if_pos h]

theorem clientStep_resolve_not {s : ClientState} {i : String} {ok : Bool}
    {code msg : String} (h : i ∉ s.pendingIds) :
    clientStep s (.resolve i ok code msg) = s := by
  simp only [clientStep]
  rw [if_neg h]

theorem clientStep_timeout_mem {s : ClientState} {i : String} (h : i ∈ s.pendingIds) :
    clientStep s (.timeout i) =
      ⟨s.pendingIds.erase i, setWaiter s.waiters i .timedOut⟩ := by
  simp only [clientStep]
  rw [if_pos h]

theorem clientStep_timeout_not {s : ClientState} {i : String} (h : i ∉ s.pendingIds) :
    clientStep s (.timeout i) = s := by
  simp only [clientStep]
  rw [if_neg h]

theorem clientStep_close (s : ClientState) (reason : String) :
    clientStep s (.close reason) =
      ⟨[], s.waiters.map fun p =>
        if p.1 ∈ s.pendingIds ∧ p.2 = .waiting then (p.1, .disconnected reason)
        else p⟩ := rfl

/-- One client operation preserves the pending-map invariant. -/
theorem clientInv_step (s : ClientState) (op : COp)
    (h1 : s.pendingIds.Nodup)
    (h2 : ∀ i ∈ s.pendingIds, lookupW s.waiters i = some .waiting) :
    (clientStep s op).pendingIds.Nodup
    ∧ ∀ i ∈ (clientStep s op).pendingIds,
        lookupW (clientStep s op).waiters i = some .waiting := by
  cases op with
  | register i =>
    by_cases hl : (lookupW s.waiters i).isSome = true
    · rw [clientStep_register_stale hl]
      exact ⟨h1, h2⟩
    · rw [clientStep_register_fresh hl]
      constructor
      · refine List.nodup_cons.mpr ⟨?_, h1⟩
        intro hin
        rw [h2 i hin] at hl
        exact hl rfl
      · intro j hj
        rcases List.mem_cons.mp hj with rfl | hj
        · show lookupW ((j, WaiterStatus.waiting) :: s.waiters) j = _
          unfold lookupW
          rw [if_pos rfl]
        · show lookupW ((i, WaiterStatus.waiting) :: s.waiters) j = _
          unfold lookupW
          rw [if_neg ?_]
          · exact h2 j hj
          · intro hij
            apply hl
            have hij' : i = j := hij
            rw [hij', h2 j hj]
            rfl
  | resolve i ok code msg =>
    by_cases hm : i ∈ s.pendingIds
    · rw [clientStep_resolve_mem hm]
      constructor
      · exact h1.erase i
      · intro j hj
        have hjne : j ≠ i := (h1.mem_erase_iff.mp hj).1
        have hjp : j ∈ s.pendingIds := (h1.mem_erase_iff.mp hj).2
        rw [lookupW_setWaiter_ne i j _ hjne]
        exact h2 j hjp
    · rw [clientStep_resolve_not hm]
      exact ⟨h1, h2⟩
  | timeout i =>
    by_cases hm : i ∈ s.pendingIds
    · rw [clientStep_timeout_mem hm]
      constructor
      · exact h1.erase i
      · intro j hj
        have hjne : j ≠ i := (h1.mem_erase_iff.mp hj).1
        have hjp : j ∈ s.pendingIds := (h1.mem_erase_iff.mp hj).2
        rw [lookupW_setWaiter_ne i j _ hjne]
        exact h2 j hjp
    · rw [clientStep_timeout_not hm]
      exact ⟨h1, h2⟩
  | close reason =>
    rw [clientStep_close]
    exact ⟨List.nodup_nil, fun j hj => absurd hj (List.not_mem_nil j)⟩

/-- Inductive invariant of the `_pending` bookkeeping: pending ids are
distinct and each names a future that is still waiting. -/
theorem clientInv_run (ops : List COp) :
    (clientRun ops).pendingIds.Nodup
    ∧ ∀ i ∈ (clientRun ops).pendingIds,
        lookupW (clientRun ops).waiters i = some .waiting := by
  suffices h : ∀ (s : ClientState), s.pendingIds.Nodup →
      (∀ i ∈ s.pendingIds, lookupW s.waiters i = some .waiting) →
      (ops.foldl clientStep s).pendingIds.Nodup
      ∧ ∀ i ∈ (ops.foldl clientStep s).pendingIds,
          lookupW (ops.foldl clientStep s).waiters i = some .waiting by
    exact h initClient List.nodup_nil (fun i hi => absurd hi (List.not_mem_nil i))
  induction ops with
  | nil =>
    intro s h1 h2
    exact ⟨h1, h2⟩
  | cons op t ih =>
    intro s h1 h2
    obtain ⟨h1', h2'⟩ := clientInv_step s op h1 h2
    exact ih (clientStep s op) h1' h2'

theorem clientRun_snoc (ops : List COp) (op : COp) :
    clientRun (ops ++ [op]) = clientStep (clientRun ops) op := by
  unfold clientRun
  rw [List.foldl_append]
  rfl

/-- C7: the pending-waiter map never retains a dead entry — every id in
`_pending` always belongs to a still-waiting future; after a request times
out, its id is gone from the map and its caller saw the `Timeout` failure;
and after a transport close every formerly-outstanding waiter is failed
with the disconnection reason and the map is empty. -/
theorem C7_pending_map_no_dead_entries (ops ops₀ : List COp) (i reason : String) :
    (∀ j ∈ (clientRun ops).pendingIds,
        lookupW (clientRun ops).waiters j = some .waiting)
    ∧ (ops = ops₀ ++ [.timeout i] →
        i ∉ (clientRun ops).pendingIds
        ∧ (i ∈ (clientRun ops₀).pendingIds →
            lookupW (clientRun ops).waiters i = some .timedOut))
    ∧ (ops = ops₀ ++ [.close reason] →
        (clientRun ops).pendingIds = []
        ∧ ∀ j ∈ (clientRun ops₀).pendingIds,
            lookupW (clientRun ops).waiters j = some (.disconnected reason)) := by
  refine ⟨(clientInv_run ops).2, ?_, ?_⟩
  · rintro rfl
    rw [clientRun_snoc]
    obtain ⟨hN0, hW0⟩ := clientInv_run ops₀
    by_cases hm : i ∈ (clientRun ops₀).pendingIds
    · rw [clientStep_timeout_mem hm]
      constructor
      · intro hc
        exact ((hN0.mem_erase_iff).mp hc).1 rfl
      · intro _
        apply lookupW_setWaiter_self
        rw [hW0 i hm]
        rfl
    · rw [clientStep_timeout_not hm]
      exact ⟨hm, fun hc => absurd hc hm⟩
  · rintro rfl
    rw [clientRun_snoc, clientStep_close]
    refine ⟨rfl, ?_⟩
    intro j hj
    exact lookupW_close (clientRun ops₀).pendingIds reason j hj
      (clientRun ops₀).waiters ((clientInv_run ops₀).2 j hj)

/-- Witness for C7: register one request, then close the transport — the
map empties and the registered waiter is failed with the disconnection
reason. -/
theorem C7_pending_map_no_dead_entries_witness :
    ([COp.register "a", COp.close "connection closed"] =
        [COp.register "a"] ++ [COp.close "connection closed"])
    ∧ ((clientRun [COp.register "a", COp.close "connection closed"]).pendingIds = []
      ∧ ∀ j ∈ (clientRun [COp.register "a"]).pendingIds,
          lookupW (clientRun [COp.register "a", COp.close "connection closed"]).waiters j =
            some (.disconnected "connection closed")) :=
  ⟨rfl,
    (C7_pending_map_no_dead_entries
      [COp.register "a", COp.close "connection closed"]
      [COp.register "a"] "a" "connection closed").2.2 rfl⟩

/-! ### Heuristic (`match_template`) lemmas -/

/-- Python's `max` over a fold: the result splits its input into a strict
prefix of strictly smaller keys (so the result is the *first* maximum) and
a suffix of no-larger keys. -/
theorem foldl_max_spec :
    ∀ (t : List (String × Nat)) (b : String × Nat),
      ∃ l₁ l₂,
        b :: t = l₁ ++ (t.foldl (fun best q => if best.2 < q.2 then q else best) b) :: l₂
        ∧ (∀ p ∈ l₁, p.2 < (t.foldl (fun best q => if best.2 < q.2 then q else best) b).2)
        ∧ (∀ p ∈ l₂, p.2 ≤ (t.foldl (fun best q => if best.2 < q.2 then q else best) b).2) := by
  intro t
  induction t with
  | nil =>
    intro b
    exact ⟨[], [], rfl, fun p hp => absurd hp (List.not_mem_nil p),
      fun p hp => absurd hp (List.not_mem_nil p)⟩
  | cons a t ih =>
    intro b
    by_cases hba : b.2 < a.2
    · have hstep : (a :: t).foldl (fun best q => if best.2 < q.2 then q else best) b =
          t.foldl (fun best q => if best.2 < q.2 then q else best) a := by
        rw [List.foldl_cons, if_pos hba]
      obtain ⟨l₁, l₂, hdec, hlt, hle⟩ := ih a
      have hbq : b.2 < (t.foldl (fun best q => if best.2 < q.2 then q else best) a).2 := by
        cases l₁ with
        | nil =>
          injection hdec with h1 _
          rw [← h1]
          exact hba
        | cons c l₁' =>
          injection hdec with h1 _
          exact lt_trans hba (hlt a (by rw [← h1]; exact List.mem_cons_self a l₁'))
      refine ⟨b :: l₁, l₂, ?_, ?_, ?_⟩
      · rw [hstep, List.cons_append, ← hdec]
      · intro p hp
        rw [hstep]
        rcases List.mem_cons.mp hp with rfl | hp
        · exact hbq
        · exact hlt p hp
      · intro p hp
        rw [hstep]
        exact hle p hp
    · have hstep : (a :: t).foldl (fun best q => if best.2 < q.2 then q else best) b =
          t.foldl (fun best q => if best.2 < q.2 then q else best) b := by
        rw [List.foldl_cons, if_neg hba]
      obtain ⟨l₁, l₂, hdec, hlt, hle⟩ := ih b
      cases l₁ with
      | nil =>
        injection hdec with h1 h2
        refine ⟨[], a :: t, ?_, ?_, ?_⟩
        · rw [hstep, List.nil_append, ← h1]
        · intro p hp
          cases hp
        · intro p hp
          rw [hstep]
          rcases List.mem_cons.mp hp with rfl | hp
          · rw [← h1]
            exact le_of_not_lt hba
          · exact hle p (by rw [← h2]; exact hp)
      | cons c l₁' =>
        injection hdec with h1 h2
        refine ⟨b :: a :: l₁', l₂, ?_, ?_, ?_⟩
        · rw [hstep, List.cons_append, List.cons_append]
          exact congrArg (fun x => b :: a :: x) h2
        · intro p hp
          rw [hstep]
          have hbmem : b ∈ c :: l₁' := by
            rw [← h1]
            exact List.mem_cons_self _ _
          rcases List.mem_cons.mp hp with rfl | hp
          · exact hlt p hbmem
          · rcases List.mem_cons.mp hp with rfl | hp
            · exact lt_of_le_of_lt (le_of_not_lt hba) (hlt b hbmem)
            · exact hlt p (List.mem_cons_of_mem c hp)
        · intro p hp
          rw [hstep]
          exact hle p hp

theorem maxFirst_spec (l : List (String × Nat)) (hne : l ≠ []) :
    ∃ q l₁ l₂, maxFirst l = some q ∧ l = l₁ ++ q :: l₂
      ∧ (∀ p ∈ l₁, p.2 < q.2) ∧ (∀ p ∈ l₂, p.2 ≤ q.2) := by
  cases l with
  | nil => exact absurd rfl hne
  | cons b t =>
    obtain ⟨l₁, l₂, hdec, hlt, hle⟩ := foldl_max_spec t b
    exact ⟨_, l₁, l₂, rfl, hdec, hlt, hle⟩

/-- C5 (amended): when the planning oracle fails or returns zero subtasks,
the task proceeds with exactly one synthetic subtask covering the whole
task description with no dependencies, whose `agent_type` is chosen by the
source's keyword heuristic: the *highest-scoring* agent type of the catalog
(the earliest in catalog order on a tie), or the default generic type
`fullstack` when no type scores a tag hit. (The claim's "first agent type
scoring at least one tag hit" is refuted by `C5_counterexample`.) -/
theorem C5_planning_fallback_single_subtask (po : PlanOutcome) (desc : String)
    (h : (∃ e, po = .failed e) ∨ po = .ok []) :
    buildSubtasks po desc = [mkSubtask "subtask-1" desc (match_template desc) []]
    ∧ (∃ tags, (match_template desc, tags) ∈ agentTemplates)
    ∧ ((∀ p ∈ templateScores desc, p.2 = 0) ∧ match_template desc = "fullstack"
      ∨ ∃ sc l₁ l₂, templateScores desc = l₁ ++ (match_template desc, sc) :: l₂
          ∧ 0 < sc ∧ (∀ p ∈ l₁, p.2 < sc) ∧ (∀ p ∈ l₂, p.2 ≤ sc)) := by
  have hne : templateScores desc ≠ [] := by
    simp [templateScores, agentTemplates]
  obtain ⟨q, l₁, l₂, hmax, hdec, hlt, hle⟩ := maxFirst_spec (templateScores desc) hne
  have hmt : match_template desc = if q.2 = 0 then "fullstack" else q.1 := by
    unfold match_template
    rw [hmax]
  refine ⟨?_, ?_, ?_⟩
  · rcases h with ⟨e, rfl⟩ | rfl
    · rfl
    · rfl
  · by_cases hq0 : q.2 = 0
    · refine ⟨["fullstack", "react", "python", "node", "api", "general"], ?_⟩
      rw [hmt, if_pos hq0]
      decide
    · have hqmem : q ∈ templateScores desc := by
        rw [hdec]
        exact List.mem_append.mpr (Or.inr (List.mem_cons_self q l₂))
      obtain ⟨pt, hpt, hfq⟩ := List.mem_map.mp hqmem
      refine ⟨pt.2, ?_⟩
      rw [hmt, if_neg hq0, ← hfq]
      exact hpt
  · by_cases hq0 : q.2 = 0
    · refine Or.inl ⟨?_, by rw [hmt, if_pos hq0]⟩
      intro p hp
      rw [hdec] at hp
      rcases List.mem_append.mp hp with hp | hp
      · have := hlt p hp
        omega
      · rcases List.mem_cons.mp hp with rfl | hp
        · exact hq0
        · have := hle p hp
          omega
    · refine Or.inr ⟨q.2, l₁, l₂, ?_, Nat.pos_of_ne_zero hq0, hlt, hle⟩
      rw [hmt, if_neg hq0]
      exact hdec

/-- Witness for C5 (amended): a zero-subtask plan for a description hitting
no catalog tag falls back to the single synthetic subtask with the generic
`fullstack` type. -/
theorem C5_planning_fallback_single_subtask_witness :
    (buildSubtasks (.ok []) "hello" =
        [mkSubtask "subtask-1" "hello" (match_template "hello") []]
      ∧ (∃ tags, (match_template "hello", tags) ∈ agentTemplates)
      ∧ ((∀ p ∈ templateScores "hello", p.2 = 0) ∧ match_template "hello" = "fullstack"
        ∨ ∃ sc l₁ l₂, templateScores "hello" = l₁ ++ (match_template "hello", sc) :: l₂
            ∧ 0 < sc ∧ (∀ p ∈ l₁, p.2 < sc) ∧ (∀ p ∈ l₂, p.2 ≤ sc)))
    ∧ match_template "hello" = "fullstack" :=
  ⟨C5_planning_fallback_single_subtask (.ok []) "hello" (Or.inr rfl), by decide⟩

end AgentOrch
